import Mathlib

/-!
Verification of the working-calendar engine of the working-days calculator.

The engine (class `WorkingDate`, final revision with the preserve-milliseconds
flag) keeps every moment in the fixed business timezone America/Bogota
(UTC-5, no daylight saving).  We embed a Luxon `DateTime` in that zone as a
calendar day index (days since 1970-01-01) together with a time of day split
into minutes since midnight, seconds and milliseconds; since the zone has a
fixed offset, `plus({days: 1})` is just a day-index increment and the UTC
conversion is a fixed 300-minute shift.  Holiday sets are finite sets of day
indices (the `yyyy-MM-dd` keys of the source's `Set<string>`).
-/

namespace WorkingCalendar

/-- A set of holiday calendar dates, each given as a day index in the business
timezone (days since 1970-01-01). -/
abbrev HolidaySet := Finset ℤ

/-- A Luxon `DateTime` held in the business timezone: calendar day index
(days since 1970-01-01), minutes since midnight, seconds and milliseconds. -/
structure DT where
  day : ℤ
  mins : ℕ
  second : ℕ
  ms : ℕ
deriving DecidableEq, Repr

/-- Luxon `weekday`: 1 = Monday .. 7 = Sunday.  Day 0 (1970-01-01) was a
Thursday, hence the offset 3. -/
def weekday (d : ℤ) : ℤ := (d + 3) % 7 + 1

/-- Luxon `hour` getter: the hour component of the time of day. -/
def DT.hour (c : DT) : ℕ := c.mins / 60

/-- The time of day in milliseconds, as Luxon compares instants of one day. -/
def DT.tms (c : DT) : ℕ := c.mins * 60000 + c.second * 1000 + c.ms

/-- `WorkingDate.isWorkDay`: not a weekend (`weekday >= 6`) and not contained
in the holiday set. -/
def isWorkDay (d : ℤ) (H : HolidaySet) : Bool :=
  !(decide (6 ≤ weekday d)) && !(decide (d ∈ H))

/-- Days-from-civil-date conversion (proleptic Gregorian calendar), used to
write the concrete dates of the repository's test scenarios as day indices. -/
def civilToDay (y : ℤ) (m d : ℕ) : ℤ :=
  let y2 : ℤ := if m ≤ 2 then y - 1 else y
  let era : ℤ := (if 0 ≤ y2 then y2 else y2 - 399) / 400
  let yoe : ℤ := y2 - era * 400
  let mp : ℕ := (m + 9) % 12
  let doy : ℤ := (153 * (mp : ℤ) + 2) / 5 + (d : ℤ) - 1
  let doe : ℤ := yoe * 365 + yoe / 4 - yoe / 100 + doy
  era * 146097 + doe - 719468

/-- Every forward day walk of the engine terminates: ahead of any day there is
a working day, because the finite holiday set has an upper bound and every
week contains a Monday. -/
theorem exists_workday_fwd (H : HolidaySet) (d : ℤ) :
    ∃ k : ℕ, isWorkDay (d + k) H = true := by
  obtain ⟨b0, hb0⟩ := Finset.exists_le H
  set b : ℤ := max b0 d with hb
  set x : ℤ := b + 1 + (4 - (b + 1)) % 7 with hx
  have hxw : (x + 3) % 7 = 0 := by omega
  have hxb : b < x := by omega
  have hdx : d ≤ x := by omega
  refine ⟨(x - d).toNat, ?_⟩
  have hxd : d + ((x - d).toNat : ℤ) = x := by omega
  rw [hxd]
  simp only [isWorkDay, Bool.and_eq_true, Bool.not_eq_true', decide_eq_false_iff_not]
  constructor
  · simp only [weekday]; omega
  · intro hmem
    have := hb0 x hmem
    omega

/-- Every backward day walk of the engine terminates: behind any day there is
a working day, because the finite holiday set has a lower bound. -/
theorem exists_workday_bwd (H : HolidaySet) (d : ℤ) :
    ∃ k : ℕ, isWorkDay (d - k) H = true := by
  obtain ⟨b0, hb0⟩ := Finset.exists_le (H.image (fun x => -x))
  have hlow : ∀ x ∈ H, -b0 ≤ x := by
    intro x hxH
    have := hb0 (-x) (Finset.mem_image_of_mem _ hxH)
    omega
  set c : ℤ := min (-b0 - 1) d with hc
  set x : ℤ := c - (c - 4) % 7 with hx
  have hxw : (x + 3) % 7 = 0 := by omega
  have hxc : x ≤ c := by omega
  have hdx : x ≤ d := by omega
  refine ⟨(d - x).toNat, ?_⟩
  have hxd : d - ((d - x).toNat : ℤ) = x := by omega
  rw [hxd]
  simp only [isWorkDay, Bool.and_eq_true, Bool.not_eq_true', decide_eq_false_iff_not]
  constructor
  · simp only [weekday]; omega
  · intro hmem
    have := hlow x hmem
    omega

/-- The first working day at or after `d`: result of the loop
`while (!isWorkDay(nextDate)) nextDate = nextDate.plus({days: 1})`. -/
def nextWorkDayFrom (H : HolidaySet) (d : ℤ) : ℤ :=
  d + Nat.find (exists_workday_fwd H d)

/-- The last working day strictly before `d`: result of the backward
`do/while` day walk of `snapToWorkingTime`. -/
def prevWorkDayBefore (H : HolidaySet) (d : ℤ) : ℤ :=
  (d - 1) - Nat.find (exists_workday_bwd H (d - 1))

theorem nextWorkDayFrom_isWorkDay (H : HolidaySet) (d : ℤ) :
    isWorkDay (nextWorkDayFrom H d) H = true :=
  Nat.find_spec (exists_workday_fwd H d)

theorem nextWorkDayFrom_self {H : HolidaySet} {d : ℤ} (h : isWorkDay d H = true) :
    nextWorkDayFrom H d = d := by
  unfold nextWorkDayFrom
  have h0 : Nat.find (exists_workday_fwd H d) = 0 :=
    (Nat.find_eq_zero _).mpr (by simpa using h)
  rw [h0]
  simp

theorem prevWorkDayBefore_isWorkDay (H : HolidaySet) (d : ℤ) :
    isWorkDay (prevWorkDayBefore H d) H = true :=
  Nat.find_spec (exists_workday_bwd H (d - 1))

/-- A `WorkingDate` value: the moment in the business timezone together with
the private `_preserveMilliseconds` flag carried by `cloneWith`. -/
structure WD where
  dt : DT
  preserveMs : Bool
deriving DecidableEq, Repr

/-- Conversion of a UTC instant into the business timezone
(`setZone('America/Bogota')`): the same instant, wall clock shifted back by
300 minutes. -/
def utcToBogota (u : DT) : DT :=
  if 300 ≤ u.mins then { u with mins := u.mins - 300 }
  else { u with day := u.day - 1, mins := u.mins + 1140 }

/-- Conversion back to UTC (`toUTC()`): wall clock shifted forward by
300 minutes. -/
def bogotaToUtc (c : DT) : DT :=
  if c.mins < 1140 then { c with mins := c.mins + 300 }
  else { c with day := c.day + 1, mins := c.mins - 1140 }

/-- `WorkingDate.fromISOUtc`: parse a UTC instant and hold it in the business
timezone, recording the preserve-milliseconds flag.  The parsed instant is
given as its UTC components `u`. -/
def fromISOUtc (u : DT) (preserveMilliseconds : Bool) : WD :=
  ⟨utcToBogota u, preserveMilliseconds⟩

/-- `WorkingDate.snapToWorkingTime`: snap backward to the last valid working
instant.  Branches in source order: non-working day; before 08:00; at or
after 17:00; lunch hour; already valid. -/
def snapToWorkingTime (w : WD) (H : HolidaySet) : WD :=
  if isWorkDay w.dt.day H = false then
    ⟨⟨prevWorkDayBefore H w.dt.day, 1020, 0, 0⟩, w.preserveMs⟩
  else if w.dt.hour < 8 then
    ⟨⟨prevWorkDayBefore H w.dt.day, 1020, 0, 0⟩, w.preserveMs⟩
  else if 17 ≤ w.dt.hour then
    ⟨⟨w.dt.day, 1020, 0, 0⟩, w.preserveMs⟩
  else if 12 ≤ w.dt.hour ∧ w.dt.hour < 13 then
    ⟨⟨w.dt.day, 720, 0, 0⟩, w.preserveMs⟩
  else w

/-- The day-stepping loop of `WorkingDate.addWorkDays`: step one day at a
time, counting only landings on working days, until `n` have been counted.
Each counted step lands on the next working day strictly ahead. -/
def addDaysLoop (H : HolidaySet) : ℕ → ℤ → ℤ
  | 0, d => d
  | n + 1, d => addDaysLoop H n (nextWorkDayFrom H (d + 1))

/-- `WorkingDate.addWorkDays`: identity for a zero count, otherwise advance
the calendar date by `n` working days, preserving the time of day. -/
def addWorkDays (w : WD) (days : ℕ) (H : HolidaySet) : WD :=
  if days = 0 then w
  else ⟨{ w.dt with day := addDaysLoop H days w.dt.day }, w.preserveMs⟩

/-- `WorkingDate.findNextWorkMoment`: zero minutes, seconds and milliseconds,
walk forward to a working day, and set the hour to 08:00. -/
def findNextWorkMoment (H : HolidaySet) (c : DT) : DT :=
  ⟨nextWorkDayFrom H c.day, 480, 0, 0⟩

/-- One pass of the non-consuming branches of the `addWorkHours` loop: roll a
non-working day or an at-or-after-close moment to 08:00 of the next working
day, a before-08:00 moment to 08:00 of the same day, and a lunch-hour moment
to 13:00 (keeping seconds and milliseconds, as `set({hour, minute})` does).
After one such pass the moment is inside a working block, so the source's
`continue` re-entry immediately reaches the consuming branch. -/
def normalizeStep (H : HolidaySet) (c : DT) : DT :=
  if isWorkDay c.day H = false ∨ 17 ≤ c.hour then
    findNextWorkMoment H { c with day := c.day + 1 }
  else if c.hour < 8 then
    findNextWorkMoment H c
  else if 12 ≤ c.hour ∧ c.hour < 13 then
    ⟨c.day, 780, c.second, c.ms⟩
  else c

/-- End of the current working block in minutes: 12:00 for a morning moment
(`hour < 12`), 17:00 otherwise. -/
def blockEndMins (c : DT) : ℕ := if c.hour < 12 then 720 else 1020

/-- `availableMinutes`: minutes left in the current working block. -/
def availMins (c : DT) : ℕ := blockEndMins c - c.mins

/-- Luxon `plus({minutes: n})` within one day. -/
def advanceMins (c : DT) (n : ℕ) : DT := { c with mins := c.mins + n }

/-- The moment sits on a working day strictly inside a working block, so the
consuming branch of the `addWorkHours` loop applies with at least one
available minute. -/
def inBlock (H : HolidaySet) (c : DT) : Prop :=
  isWorkDay c.day H = true ∧
    ((480 ≤ c.mins ∧ c.mins < 720) ∨ (780 ≤ c.mins ∧ c.mins < 1020))

theorem normalizeStep_inBlock (H : HolidaySet) (c : DT) :
    inBlock H (normalizeStep H c) := by
  unfold normalizeStep inBlock findNextWorkMoment
  split
  · exact ⟨nextWorkDayFrom_isWorkDay H _, by dsimp only; omega⟩
  · rename_i h1
    split
    · refine ⟨?_, by dsimp only; omega⟩
      have hw : isWorkDay c.day H = true := by
        cases heq : isWorkDay c.day H with
        | false => exact absurd (Or.inl heq) h1
        | true => rfl
      simpa [nextWorkDayFrom_self hw]
    · rename_i h2
      split
      · refine ⟨?_, by dsimp only; omega⟩
        cases heq : isWorkDay c.day H with
        | false => exact absurd (Or.inl heq) h1
        | true => rfl
      · rename_i h3
        have hw : isWorkDay c.day H = true := by
          cases heq : isWorkDay c.day H with
          | false => exact absurd (Or.inl heq) h1
          | true => rfl
        refine ⟨hw, ?_⟩
        have hh : ¬ 17 ≤ c.hour := fun h => h1 (Or.inr h)
        unfold DT.hour at h2 h3 hh
        omega

theorem inBlock_one_le_avail {H : HolidaySet} {c : DT} (h : inBlock H c) :
    1 ≤ availMins c := by
  obtain ⟨-, h2⟩ := h
  unfold availMins blockEndMins DT.hour
  rcases h2 with ⟨h3, h4⟩ | ⟨h3, h4⟩ <;> [skip; skip] <;> split <;> omega

/-- The minute-consuming loop of `WorkingDate.addWorkHours`: while minutes
remain, roll the moment into a working block and consume
`min(remaining, availableMinutes)` minutes of it.  Terminates because every
pass consumes at least one minute. -/
def addLoop (H : HolidaySet) (c : DT) (remaining : ℕ) : DT :=
  if _hr : remaining = 0 then c
  else
    addLoop H (advanceMins (normalizeStep H c) (min remaining (availMins (normalizeStep H c))))
      (remaining - min remaining (availMins (normalizeStep H c)))
termination_by remaining
decreasing_by
  have h1 := inBlock_one_le_avail (normalizeStep_inBlock H c)
  omega

/-- `WorkingDate.addWorkHours` (final, block-based revision): identity for a
zero count, otherwise run the minute loop on `hours * 60` minutes. -/
def addWorkHours (w : WD) (hours : ℕ) (H : HolidaySet) : WD :=
  if hours = 0 then w
  else ⟨addLoop H w.dt (hours * 60), w.preserveMs⟩

/-- The formatted output of `WorkingDate.toISOUtc`, structured: the UTC
instant and whether the ISO string carries a milliseconds component.  Luxon's
`suppressMilliseconds` only drops the component when it is zero, so the
component appears iff the flag was set or the milliseconds are nonzero. -/
structure IsoOut where
  instant : DT
  showMs : Bool
deriving DecidableEq, Repr

/-- `WorkingDate.toISOUtc`: convert back to UTC and format, suppressing
milliseconds unless the preserve flag is set. -/
def toISOUtc (w : WD) : IsoOut :=
  ⟨bogotaToUtc w.dt, w.preserveMs || ((bogotaToUtc w.dt).ms != 0)⟩

/-- Zero padding to two digits, as in ISO-8601 date and time components. -/
def pad2 (n : ℕ) : String :=
  if n < 10 then "0" ++ toString n else toString n

/-- Zero padding to three digits, for the milliseconds component. -/
def pad3 (n : ℕ) : String :=
  if n < 10 then "00" ++ toString n
  else if n < 100 then "0" ++ toString n
  else toString n

/-- Zero padding to four digits, for the year component. -/
def pad4 (n : ℕ) : String :=
  if n < 10 then "000" ++ toString n
  else if n < 100 then "00" ++ toString n
  else if n < 1000 then "0" ++ toString n
  else toString n

/-- Civil date (year, month, day of month) of a day index, inverse of
`civilToDay`, used only to print the output string. -/
def civilFromDay (z : ℤ) : ℤ × ℕ × ℕ :=
  let z2 : ℤ := z + 719468
  let era : ℤ := (if 0 ≤ z2 then z2 else z2 - 146096) / 146097
  let doe : ℕ := (z2 - era * 146097).toNat
  let yoe : ℕ := (doe - doe / 1460 + doe / 36524 - doe / 146096) / 365
  let doy : ℕ := doe - (365 * yoe + yoe / 4 - yoe / 100)
  let mp : ℕ := (5 * doy + 2) / 153
  let dom : ℕ := doy - (153 * mp + 2) / 5 + 1
  let m : ℕ := if mp < 10 then mp + 3 else mp - 9
  let y : ℤ := (yoe : ℤ) + era * 400
  (if m ≤ 2 then y + 1 else y, m, dom)

/-- Body of the formatted ISO-8601 UTC string, before the final `Z`:
`YYYY-MM-DDTHH:MM:SS` with an optional `.SSS` milliseconds component. -/
def renderCore (o : IsoOut) : String :=
  let ymd := civilFromDay o.instant.day
  pad4 ymd.1.toNat ++ "-" ++ pad2 ymd.2.1 ++ "-" ++ pad2 ymd.2.2 ++ "T" ++
    pad2 (o.instant.mins / 60) ++ ":" ++ pad2 (o.instant.mins % 60) ++ ":" ++
    pad2 o.instant.second ++
    (if o.showMs then "." ++ pad3 o.instant.ms else "")

/-- The formatted ISO-8601 UTC string produced by `toISOUtc`. -/
def renderIso (o : IsoOut) : String := renderCore o ++ "Z"

/-- A well-formed UTC ISO-8601 instant string, structured: the parsed UTC
components (with `instant.ms` the parsed milliseconds value) and the number
of fractional-second digits written in the string (`0` when absent).  The
regex `\.\d{3}Z$` of the service matches exactly when `fracLen = 3`. -/
structure IsoIn where
  instant : DT
  fracLen : ℕ
deriving DecidableEq, Repr

/-- The service's milliseconds detection
`isoDate != null && /\.\d{3}Z$/.test(isoDate)`. -/
def hasMillisPattern : Option IsoIn → Bool
  | none => false
  | some i => i.fracLen == 3

/-- `CalculateDateDto`: days, hours and the optional `date` query parameter
(defaults of `0` applied by the controller). -/
structure CalculateDateDto where
  days : ℕ
  hours : ℕ
  date : Option IsoIn
deriving DecidableEq, Repr

/-- `CalendarService.calculateWorkingDate`, up to formatting: build the
holiday lookup set (given here already as `holidaySet`), detect input
milliseconds, create the moment (from `date`, or from the current UTC
instant `now` when absent), snap, add days, add hours, convert to UTC. -/
def calculateOut (holidaySet : HolidaySet) (now : DT) (input : CalculateDateDto) : IsoOut :=
  let hasMilliseconds := hasMillisPattern input.date
  let start : DT :=
    match input.date with
    | some i => i.instant
    | none => now
  let w0 := fromISOUtc start hasMilliseconds
  let w1 := snapToWorkingTime w0 holidaySet
  let w2 := addWorkDays w1 input.days holidaySet
  let w3 := addWorkHours w2 input.hours holidaySet
  toISOUtc w3

/-- `CalendarService.calculateWorkingDate`: the formatted response string. -/
def calculateWorkingDate (holidaySet : HolidaySet) (now : DT) (input : CalculateDateDto) : String :=
  renderIso (calculateOut holidaySet now input)

/-- A holiday entity: calendar date (day index) and display name. -/
abbrev Holiday := ℤ × String

/-- `ApiHolidayRepository.findAll`: on any remote failure return the empty
list (the `catch` branch); otherwise map each fetched date string to a
holiday with the placeholder name, dropping entries that failed to parse
(modelled as `none`). -/
def apiFindAll (remote : Except String (List (Option ℤ))) : List Holiday :=
  match remote with
  | Except.error _ => []
  | Except.ok ds => ds.filterMap (fun o => o.map (fun d => (d, "Holiday")))

/-- `HolidayCacheService.findAll`: when the TTL check passes, serve the
persisted store if it is non-empty; otherwise (stale or empty) fall through
to the remote source.  A store read failure propagates (`await` outside any
`try`); the remote fetch never fails because `apiFindAll` catches.  The
fire-and-forget `save` does not affect the returned list. -/
def cacheFindAll (cacheValid : Bool) (store : Except String (List Holiday))
    (remote : Except String (List (Option ℤ))) : Except String (List Holiday) :=
  if cacheValid then
    match store with
    | Except.error e => Except.error e
    | Except.ok l =>
        if 0 < l.length then Except.ok l else Except.ok (apiFindAll remote)
  else Except.ok (apiFindAll remote)

/-- The holiday lookup set the service builds from a repository answer:
`new Set(holidays.map((h) => h.date.toISOString().split('T')[0]))`. -/
def holidayDates (l : List Holiday) : HolidaySet := (l.map (fun h => h.1)).toFinset

/-- Weekend test of the earlier `working-date.value-object.ts` revision:
`date.weekday > 5` (equivalent to the final revision's `>= 6`). -/
def isWorkDayV1 (d : ℤ) (H : HolidaySet) : Bool :=
  !(decide (5 < weekday d)) && !(decide (d ∈ H))

/-- `WorkingDate.isWorkTime` of the earlier revision: membership of the
instant in the Luxon intervals `[08:00, 12:00)` or `[13:00, 17:00)` of its
date (`Interval.contains` excludes the right endpoint), compared at
millisecond precision. -/
def isWorkTime (c : DT) : Bool :=
  (decide (28800000 ≤ c.tms) && decide (c.tms < 43200000)) ||
    (decide (46800000 ≤ c.tms) && decide (c.tms < 61200000))

/-- Luxon `plus({minutes: 1})`, rolling to the next day past midnight. -/
def stepMinute (c : DT) : DT :=
  if c.mins + 1 < 1440 then { c with mins := c.mins + 1 }
  else ⟨c.day + 1, 0, c.second, c.ms⟩

/-- The inner day-fixing loop of the earlier minute walk: while the date is
not a working day, `plus({days: 1}).set({hour: 8, minute: 0})`.  Iteration
bounded by explicit fuel; `none` means the bound was exhausted. -/
def fixDayV1 (H : HolidaySet) : ℕ → DT → Option DT
  | 0, _ => none
  | fuel + 1, c =>
      if isWorkDayV1 c.day H then some c
      else fixDayV1 H fuel ⟨c.day + 1, 480, c.second, c.ms⟩

/-- The minute-by-minute walk of the earlier revision's `addWorkHours`:
advance one minute, fix non-working days, consume the minute when inside
working time, otherwise jump over the close of day, lunch, or the early
morning.  Iteration bounded by explicit fuel. -/
def minuteWalk (H : HolidaySet) : ℕ → DT → ℕ → Option DT
  | 0, _, _ => none
  | fuel + 1, c, r =>
      if r = 0 then some c
      else
        match fixDayV1 H (fuel + 1) (stepMinute c) with
        | none => none
        | some c2 =>
            if isWorkTime c2 then minuteWalk H fuel c2 (r - 1)
            else if 17 ≤ c2.hour then
              minuteWalk H fuel ⟨c2.day + 1, 480, c2.second, c2.ms⟩ r
            else if 12 ≤ c2.hour ∧ c2.hour < 13 then
              minuteWalk H fuel ⟨c2.day, 780, c2.second, c2.ms⟩ r
            else if c2.hour < 8 then
              minuteWalk H fuel ⟨c2.day, 480, c2.second, c2.ms⟩ r
            else minuteWalk H fuel c2 r

/-- The `addWorkDays` loop shared by both revisions, fuel-bounded for the
decomposed path: step one day, count working-day landings. -/
def addDaysFuelV1 (H : HolidaySet) : ℕ → ℕ → ℤ → Option ℤ
  | 0, _, _ => none
  | fuel + 1, need, d =>
      if need = 0 then some d
      else if isWorkDayV1 (d + 1) H then addDaysFuelV1 H fuel (need - 1) (d + 1)
      else addDaysFuelV1 H fuel need (d + 1)

/-- `WorkingDate.addWorkHours` of the earlier revision: decompose
`hours >= 8` into `floor(hours / 8)` whole working-day advances through
`addWorkDays`, then walk the remaining `hours % 8` converted to minutes. -/
def addWorkHoursDecomposed (H : HolidaySet) (fuel : ℕ) (c : DT) (hours : ℕ) : Option DT :=
  if hours = 0 then some c
  else
    match
      (if 8 ≤ hours then
        (addDaysFuelV1 H fuel (hours / 8) c.day).map (fun d2 => { c with day := d2 })
      else some c) with
    | none => none
    | some c2 => minuteWalk H fuel c2 (hours % 8 * 60)

/-- Day index of Wednesday 2025-04-09 (the fixed working Wednesday of the
repository's test examples 5 to 8). -/
def wedDay : ℤ := civilToDay 2025 4 9

/-- Day index of Thursday 2025-04-10. -/
def thuDay : ℤ := civilToDay 2025 4 10

theorem addLoop_zero (H : HolidaySet) (c : DT) : addLoop H c 0 = c := by
  rw [addLoop]
  simp

theorem addLoop_step (H : HolidaySet) (c : DT) (r : ℕ) (h : r ≠ 0) :
    addLoop H c r =
      addLoop H (advanceMins (normalizeStep H c) (min r (availMins (normalizeStep H c))))
        (r - min r (availMins (normalizeStep H c))) := by
  conv_lhs => rw [addLoop]
  simp [h]

/-- After the minute loop has consumed at least one minute, the moment lies on
a working day with time of day in `(08:00, 12:00]` or `(13:00, 17:00]` at
minute granularity. -/
theorem addLoop_post (H : HolidaySet) :
    ∀ r : ℕ, ∀ c : DT, 0 < r →
      isWorkDay (addLoop H c r).day H = true ∧
        ((480 < (addLoop H c r).mins ∧ (addLoop H c r).mins ≤ 720) ∨
          (780 < (addLoop H c r).mins ∧ (addLoop H c r).mins ≤ 1020)) := by
  intro r
  induction r using Nat.strong_induction_on with
  | _ r ih =>
    intro c hr
    rw [addLoop_step H c r (by omega)]
    have hib := normalizeStep_inBlock H c
    have hav := inBlock_one_le_avail hib
    obtain ⟨hw, hm⟩ := hib
    by_cases h0 : r - min r (availMins (normalizeStep H c)) = 0
    · rw [h0, addLoop_zero]
      refine ⟨hw, ?_⟩
      unfold advanceMins
      dsimp only
      by_cases h12 : (normalizeStep H c).mins / 60 < 12
      · have ha : availMins (normalizeStep H c) = 720 - (normalizeStep H c).mins := by
          simp [availMins, blockEndMins, DT.hour, h12]
        rw [ha] at hav ⊢
        omega
      · have ha : availMins (normalizeStep H c) = 1020 - (normalizeStep H c).mins := by
          simp [availMins, blockEndMins, DT.hour, h12]
        rw [ha] at hav ⊢
        omega
    · exact ih _ (by omega) _ (by omega)

theorem utcToBogota_ms (u : DT) : (utcToBogota u).ms = u.ms := by
  unfold utcToBogota
  split <;> rfl

theorem bogotaToUtc_ms (c : DT) : (bogotaToUtc c).ms = c.ms := by
  unfold bogotaToUtc
  split <;> rfl

theorem snapToWorkingTime_preserveMs (w : WD) (H : HolidaySet) :
    (snapToWorkingTime w H).preserveMs = w.preserveMs := by
  unfold snapToWorkingTime
  repeat' split
  all_goals rfl

theorem addWorkDays_preserveMs (w : WD) (n : ℕ) (H : HolidaySet) :
    (addWorkDays w n H).preserveMs = w.preserveMs := by
  unfold addWorkDays
  split <;> rfl

theorem addWorkHours_preserveMs (w : WD) (h : ℕ) (H : HolidaySet) :
    (addWorkHours w h H).preserveMs = w.preserveMs := by
  unfold addWorkHours
  split <;> rfl

theorem snapToWorkingTime_ms_zero {w : WD} (H : HolidaySet) (h : w.dt.ms = 0) :
    (snapToWorkingTime w H).dt.ms = 0 := by
  unfold snapToWorkingTime
  repeat' split
  all_goals simpa using h

theorem addWorkDays_ms (w : WD) (n : ℕ) (H : HolidaySet) :
    (addWorkDays w n H).dt.ms = w.dt.ms := by
  unfold addWorkDays
  split <;> rfl

theorem normalizeStep_ms_zero {c : DT} (H : HolidaySet) (h : c.ms = 0) :
    (normalizeStep H c).ms = 0 := by
  unfold normalizeStep findNextWorkMoment
  repeat' split
  all_goals simpa using h

theorem addLoop_ms_zero (H : HolidaySet) :
    ∀ r : ℕ, ∀ c : DT, c.ms = 0 → (addLoop H c r).ms = 0 := by
  intro r
  induction r using Nat.strong_induction_on with
  | _ r ih =>
    intro c hc
    by_cases hr : r = 0
    · rw [hr, addLoop_zero]; exact hc
    · rw [addLoop_step H c r hr]
      have hav := inBlock_one_le_avail (normalizeStep_inBlock H c)
      by_cases h0 : r - min r (availMins (normalizeStep H c)) = 0
      · rw [h0, addLoop_zero]
        unfold advanceMins
        dsimp only
        exact normalizeStep_ms_zero H hc
      · exact ih _ (by omega) _ (by
          unfold advanceMins
          dsimp only
          exact normalizeStep_ms_zero H hc)

theorem addWorkHours_ms_zero {w : WD} (h : ℕ) (H : HolidaySet) (hm : w.dt.ms = 0) :
    (addWorkHours w h H).dt.ms = 0 := by
  unfold addWorkHours
  split
  · exact hm
  · exact addLoop_ms_zero H _ _ hm

/-- Evaluation of the block-based minute loop over one full business day from
Wednesday 08:00: the morning block consumes 240 minutes to 12:00, the lunch
roll moves to 13:00, and the afternoon block consumes the remaining 240
minutes to exactly 17:00. -/
theorem addLoop_wed_full_day : addLoop ∅ ⟨wedDay, 480, 0, 0⟩ 480 = ⟨wedDay, 1020, 0, 0⟩ := by
  rw [addLoop_step ∅ _ _ (by norm_num)]
  show addLoop ∅ ⟨wedDay, 720, 0, 0⟩ 240 = ⟨wedDay, 1020, 0, 0⟩
  rw [addLoop_step ∅ _ _ (by norm_num)]
  show addLoop ∅ ⟨wedDay, 1020, 0, 0⟩ 0 = ⟨wedDay, 1020, 0, 0⟩
  exact addLoop_zero ∅ _

/-- Evaluation of `addWorkHours` for Wednesday 08:00 plus 8 hours with no
holidays: exactly 17:00 of the same Wednesday. -/
theorem addWorkHours_wed8_eval :
    addWorkHours ⟨⟨wedDay, 480, 0, 0⟩, false⟩ 8 ∅ = ⟨⟨wedDay, 1020, 0, 0⟩, false⟩ := by
  unfold addWorkHours
  rw [if_neg (by norm_num)]
  dsimp only
  norm_num [addLoop_wed_full_day]

/-- C7.  Adding zero working days or zero working hours is the identity on
the whole `WorkingDate` value, including the preserve-milliseconds flag:
both methods return `this` unchanged when the count is not positive. -/
theorem claim7_add_zero_identity (w : WD) (H : HolidaySet) :
    addWorkDays w 0 H = w ∧ addWorkHours w 0 H = w :=
  ⟨rfl, rfl⟩

/-- C10.  The day walks of `snapToWorkingTime`, `addWorkDays`,
`findNextWorkMoment` and the hour loop all terminate for every finite
holiday set: ahead of and behind every day there is a working day, and every
pass of the minute-consuming loop of `addWorkHours` has at least one
available minute after its rolling step, so the remaining budget strictly
decreases. -/
theorem claim10_termination (H : HolidaySet) (d : ℤ) :
    (∃ k : ℕ, isWorkDay (d + k) H = true) ∧
      (∃ k : ℕ, isWorkDay (d - k) H = true) ∧
      (∀ c : DT, 1 ≤ availMins (normalizeStep H c)) :=
  ⟨exists_workday_fwd H d, exists_workday_bwd H d,
    fun c => inBlock_one_le_avail (normalizeStep_inBlock H c)⟩

/-- C9.  When the remote holiday source fails and the persisted store is
empty, `findAll` of the cache strategy returns the empty list — it does not
propagate the failure — and the holiday set the calculation builds from it
is empty, so the calculation proceeds as if there were no holidays. -/
theorem claim9_degraded_mode (cacheValid : Bool) (e : String) :
    cacheFindAll cacheValid (Except.ok []) (Except.error e) = Except.ok [] ∧
      holidayDates [] = (∅ : HolidaySet) := by
  constructor
  · cases cacheValid <;> simp [cacheFindAll, apiFindAll]
  · rfl

/-- C5 counterexample.  `isWorkTime` is false at exactly 17:00:00.000 — the
Luxon interval `[13:00, 17:00)` excludes its right endpoint — while the
claim states that a moment of exactly 17:00:00 is working time. -/
theorem claim5_counterexample : isWorkTime ⟨wedDay, 1020, 0, 0⟩ = false := by
  decide

/-- C5 amended.  `isWorkTime` is true exactly on `[08:00, 12:00)` and
`[13:00, 17:00)` at millisecond precision, hence false at exactly 17:00:00;
nevertheless the final block-based `addWorkHours` treats 17:00:00 as a valid
terminal landing: adding 4 hours from Wednesday 13:00 ends at 17:00 of the
same day and does not roll to the next morning. -/
theorem claim5_amended :
    (∀ c : DT, isWorkTime c = true ↔
        ((28800000 ≤ c.tms ∧ c.tms < 43200000) ∨ (46800000 ≤ c.tms ∧ c.tms < 61200000))) ∧
      (∀ d : ℤ, isWorkTime ⟨d, 1020, 0, 0⟩ = false) ∧
      addWorkHours ⟨⟨wedDay, 780, 0, 0⟩, false⟩ 4 ∅ = ⟨⟨wedDay, 1020, 0, 0⟩, false⟩ := by
  refine ⟨?_, ?_, ?_⟩
  · intro c
    simp [isWorkTime]
  · intro d
    have h : DT.tms ⟨d, 1020, 0, 0⟩ = 61200000 := by norm_num [DT.tms]
    rw [isWorkTime, h]
    norm_num
  · unfold addWorkHours
    rw [if_neg (by norm_num)]
    dsimp only
    have h1 : addLoop ∅ ⟨wedDay, 780, 0, 0⟩ 240 = ⟨wedDay, 1020, 0, 0⟩ := by
      rw [addLoop_step ∅ _ _ (by norm_num)]
      show addLoop ∅ ⟨wedDay, 1020, 0, 0⟩ 0 = ⟨wedDay, 1020, 0, 0⟩
      exact addLoop_zero ∅ _
    norm_num [h1]

/-- C1 counterexample.  Starting from Wednesday 09:00 (a valid working
moment) and adding 3 working hours, the budget is exhausted exactly at
12:00:00 and `addWorkHours` returns 12:00 of the same day: the result lies
in the lunch window 12:00–12:59 and is not pushed to 13:00:00. -/
theorem claim1_counterexample :
    (addWorkHours ⟨⟨wedDay, 540, 0, 0⟩, false⟩ 3 ∅).dt = ⟨wedDay, 720, 0, 0⟩ ∧
      (addWorkHours ⟨⟨wedDay, 540, 0, 0⟩, false⟩ 3 ∅).dt.hour = 12 := by
  have h1 : addLoop ∅ ⟨wedDay, 540, 0, 0⟩ 180 = ⟨wedDay, 720, 0, 0⟩ := by
    rw [addLoop_step ∅ _ _ (by norm_num)]
    show addLoop ∅ ⟨wedDay, 720, 0, 0⟩ 0 = ⟨wedDay, 720, 0, 0⟩
    exact addLoop_zero ∅ _
  have h2 : (addWorkHours ⟨⟨wedDay, 540, 0, 0⟩, false⟩ 3 ∅).dt = ⟨wedDay, 720, 0, 0⟩ := by
    unfold addWorkHours
    rw [if_neg (by norm_num)]
    dsimp only
    norm_num [h1]
  exact ⟨h2, by rw [h2]; rfl⟩

/-- C1 amended.  For every positive hour count the result of `addWorkHours`
falls on a working day (never Saturday, Sunday or a holiday) and its time of
day lies in `(08:00, 12:00]` or `(13:00, 17:00]` at minute granularity: the
result is never strictly inside the lunch window after 12:00, but a budget
exhausted exactly at 12:00:00 lands on 12:00:00 itself and is not pushed to
13:00:00. -/
theorem claim1_landing_invariant (w : WD) (H : HolidaySet) (h : ℕ) (hp : 0 < h) :
    isWorkDay (addWorkHours w h H).dt.day H = true ∧
      ((480 < (addWorkHours w h H).dt.mins ∧ (addWorkHours w h H).dt.mins ≤ 720) ∨
        (780 < (addWorkHours w h H).dt.mins ∧ (addWorkHours w h H).dt.mins ≤ 1020)) := by
  unfold addWorkHours
  rw [if_neg (by omega)]
  dsimp only
  exact addLoop_post H (h * 60) w.dt (by omega)

/-- C1 witness: the landing invariant at Wednesday 14:30 plus 5 hours. -/
theorem claim1_landing_invariant_witness :
    0 < 5 ∧
      (isWorkDay (addWorkHours ⟨⟨wedDay, 870, 0, 0⟩, false⟩ 5 ∅).dt.day ∅ = true ∧
        ((480 < (addWorkHours ⟨⟨wedDay, 870, 0, 0⟩, false⟩ 5 ∅).dt.mins ∧
            (addWorkHours ⟨⟨wedDay, 870, 0, 0⟩, false⟩ 5 ∅).dt.mins ≤ 720) ∨
          (780 < (addWorkHours ⟨⟨wedDay, 870, 0, 0⟩, false⟩ 5 ∅).dt.mins ∧
            (addWorkHours ⟨⟨wedDay, 870, 0, 0⟩, false⟩ 5 ∅).dt.mins ≤ 1020))) :=
  ⟨by norm_num, claim1_landing_invariant ⟨⟨wedDay, 870, 0, 0⟩, false⟩ ∅ 5 (by norm_num)⟩

/-- C2.  Scenario D: Wednesday 2025-04-09 08:00 in the business timezone is a
valid working moment (snapping is the identity on it), and adding 8 working
hours with no holidays returns 17:00 of the same Wednesday — one full
business day of hours, no rollover to Thursday. -/
theorem claim2_scenario_d :
    weekday wedDay = 3 ∧
      snapToWorkingTime ⟨⟨wedDay, 480, 0, 0⟩, false⟩ ∅ = ⟨⟨wedDay, 480, 0, 0⟩, false⟩ ∧
      addWorkHours ⟨⟨wedDay, 480, 0, 0⟩, false⟩ 8 ∅ = ⟨⟨wedDay, 1020, 0, 0⟩, false⟩ :=
  ⟨by decide, by decide, addWorkHours_wed8_eval⟩

/-- C3.  On a working day, a moment inside the lunch window `[12:00, 13:00)`
snaps to 12:00:00.000 of the same date, and a moment at or after 17:00 snaps
to 17:00:00.000 of the same date; consequently Wednesday 12:30 plus one
working day lands on Thursday 12:00. -/
theorem claim3_lunch_snap :
    (∀ (w : WD) (H : HolidaySet),
        isWorkDay w.dt.day H = true → 720 ≤ w.dt.mins → w.dt.mins < 780 →
          snapToWorkingTime w H = ⟨⟨w.dt.day, 720, 0, 0⟩, w.preserveMs⟩) ∧
      (∀ (w : WD) (H : HolidaySet),
        isWorkDay w.dt.day H = true → 1020 ≤ w.dt.mins →
          snapToWorkingTime w H = ⟨⟨w.dt.day, 1020, 0, 0⟩, w.preserveMs⟩) ∧
      addWorkDays (snapToWorkingTime ⟨⟨wedDay, 750, 0, 0⟩, false⟩ ∅) 1 ∅ =
        ⟨⟨thuDay, 720, 0, 0⟩, false⟩ := by
  refine ⟨?_, ?_, ?_⟩
  · intro w H h1 h2 h3
    unfold snapToWorkingTime
    rw [if_neg (by simp [h1]), if_neg (by unfold DT.hour; omega),
      if_neg (by unfold DT.hour; omega), if_pos (by unfold DT.hour; omega)]
  · intro w H h1 h2
    unfold snapToWorkingTime
    rw [if_neg (by simp [h1]), if_neg (by unfold DT.hour; omega),
      if_pos (by unfold DT.hour; omega)]
  · have hs : snapToWorkingTime ⟨⟨wedDay, 750, 0, 0⟩, false⟩ ∅ =
        ⟨⟨wedDay, 720, 0, 0⟩, false⟩ := by decide
    rw [hs]
    unfold addWorkDays
    rw [if_neg (by norm_num)]
    have hd : addDaysLoop ∅ 1 wedDay = thuDay := by
      show nextWorkDayFrom ∅ (wedDay + 1) = thuDay
      rw [nextWorkDayFrom_self (by decide)]
      decide
    dsimp only
    rw [hd]

/-- C3 witness: the lunch-snap rule applied to Wednesday 12:30:10.005 with
the preserve flag set. -/
theorem claim3_lunch_snap_witness :
    isWorkDay wedDay ∅ = true ∧ (720 : ℕ) ≤ 750 ∧ (750 : ℕ) < 780 ∧
      snapToWorkingTime ⟨⟨wedDay, 750, 10, 5⟩, true⟩ ∅ = ⟨⟨wedDay, 720, 0, 0⟩, true⟩ :=
  ⟨by decide, by norm_num, by norm_num,
    claim3_lunch_snap.1 ⟨⟨wedDay, 750, 10, 5⟩, true⟩ ∅ (by decide) (by norm_num) (by norm_num)⟩

set_option maxRecDepth 40000 in
/-- C4.  At Wednesday 2025-04-09 08:00 with 8 hours and no holidays, the
decomposed path of the earlier `addWorkHours` (whole-day advance for
`floor(8/8)`, then a zero-minute remainder walk) yields Thursday 08:00, its
own naive minute-by-minute walk over all 480 minutes yields Thursday 08:02,
and the final block-based `addWorkHours` yields Wednesday 17:00 (the value
the repository's API test Example 5 asserts): the three disagree, so the
claimed decomposition equivalence fails on this input. -/
theorem claim4_decomposition_divergence :
    addWorkHoursDecomposed ∅ 3000 ⟨wedDay, 480, 0, 0⟩ 8 = some ⟨thuDay, 480, 0, 0⟩ ∧
      minuteWalk ∅ 3000 ⟨wedDay, 480, 0, 0⟩ (8 * 60) = some ⟨thuDay, 482, 0, 0⟩ ∧
      addWorkHours ⟨⟨wedDay, 480, 0, 0⟩, false⟩ 8 ∅ = ⟨⟨wedDay, 1020, 0, 0⟩, false⟩ ∧
      (⟨thuDay, 480, 0, 0⟩ : DT) ≠ ⟨thuDay, 482, 0, 0⟩ ∧
      (⟨wedDay, 1020, 0, 0⟩ : DT) ≠ ⟨thuDay, 480, 0, 0⟩ :=
  ⟨by decide, by decide, addWorkHours_wed8_eval, by decide, by decide⟩

/-- C6.  Converting a UTC instant with no sub-second component into the
business timezone and formatting it back to UTC is the identity: the
structured instant round-trips unchanged and the milliseconds component is
suppressed, so the rendered string equals the rendering of the input. -/
theorem claim6_utc_round_trip (u : DT) (h1 : u.mins < 1440) (h2 : u.ms = 0) :
    toISOUtc (fromISOUtc u false) = ⟨u, false⟩ ∧
      renderIso (toISOUtc (fromISOUtc u false)) = renderIso ⟨u, false⟩ := by
  have hb : bogotaToUtc (utcToBogota u) = u := by
    cases u with
    | mk day mins second ms =>
      unfold utcToBogota bogotaToUtc
      dsimp only at h1 ⊢
      by_cases h : 300 ≤ mins
      · rw [if_pos h]
        dsimp only
        rw [if_pos (by omega)]
        rw [DT.mk.injEq]
        refine ⟨rfl, by omega, rfl, rfl⟩
      · rw [if_neg h]
        dsimp only
        rw [if_neg (by omega)]
        rw [DT.mk.injEq]
        refine ⟨by omega, by omega, rfl, rfl⟩
  have hmain : toISOUtc (fromISOUtc u false) = ⟨u, false⟩ := by
    unfold toISOUtc fromISOUtc
    dsimp only
    rw [hb]
    simp [h2]
  exact ⟨hmain, congrArg renderIso hmain⟩

/-- C6 witness: the round trip at the UTC instant 2025-04-09T15:00:30Z. -/
theorem claim6_utc_round_trip_witness :
    (900 : ℕ) < 1440 ∧
      toISOUtc (fromISOUtc ⟨20187, 900, 30, 0⟩ false) = ⟨⟨20187, 900, 30, 0⟩, false⟩ :=
  ⟨by norm_num, (claim6_utc_round_trip ⟨20187, 900, 30, 0⟩ (by norm_num) rfl).1⟩

/-- C8 counterexample.  The request with `date = 2025-04-09T17:30:00.5Z`
(one fractional-second digit, so the instant explicitly carries sub-second
precision, parsed as 500 ms, while the service's `\.\d{3}Z$` detection does
not match) and `days = hours = 0` snaps the moment out of lunch to
12:00:00.000; the output carries no milliseconds component although the
input instant did carry sub-second precision. -/
theorem claim8_counterexample :
    (calculateOut ∅ ⟨0, 0, 0, 0⟩ ⟨0, 0, some ⟨⟨wedDay, 1050, 0, 500⟩, 1⟩⟩).showMs = false ∧
      (⟨⟨wedDay, 1050, 0, 500⟩, 1⟩ : IsoIn).fracLen ≠ 0 := by
  exact ⟨by decide, by norm_num⟩

/-- C8 amended.  Every orchestrator output is a string ending in `Z`; the
milliseconds component is present whenever the input matched the
three-digit-milliseconds pattern, and absent whenever the parsed input
instant carries zero milliseconds and does not match the pattern (in
particular for every input with no fractional digits). -/
theorem claim8_output_shape (H : HolidaySet) (now : DT) (input : CalculateDateDto) :
    (∃ b, calculateWorkingDate H now input = b ++ "Z") ∧
      (∀ i, input.date = some i → i.fracLen = 3 →
        (calculateOut H now input).showMs = true) ∧
      (∀ i, input.date = some i → i.instant.ms = 0 → ¬ i.fracLen = 3 →
        (calculateOut H now input).showMs = false) := by
  refine ⟨⟨renderCore (calculateOut H now input), rfl⟩, ?_, ?_⟩
  · intro i hi h3
    obtain ⟨ds, hs, od⟩ := input
    dsimp only at hi
    subst hi
    unfold calculateOut toISOUtc
    dsimp only
    rw [addWorkHours_preserveMs, addWorkDays_preserveMs, snapToWorkingTime_preserveMs]
    simp [fromISOUtc, hasMillisPattern, h3]
  · intro i hi hms h3
    obtain ⟨ds, hs, od⟩ := input
    dsimp only at hi
    subst hi
    have hm0 : (fromISOUtc i.instant (hasMillisPattern (some i))).dt.ms = 0 := by
      unfold fromISOUtc
      dsimp only
      rw [utcToBogota_ms]
      exact hms
    have hm1 := snapToWorkingTime_ms_zero H hm0
    have hm2 : (addWorkDays (snapToWorkingTime
        (fromISOUtc i.instant (hasMillisPattern (some i))) H) ds H).dt.ms = 0 := by
      rw [addWorkDays_ms]
      exact hm1
    have hm3 := addWorkHours_ms_zero hs H hm2
    unfold calculateOut toISOUtc
    dsimp only
    rw [bogotaToUtc_ms, hm3, addWorkHours_preserveMs, addWorkDays_preserveMs,
      snapToWorkingTime_preserveMs]
    simp [fromISOUtc, hasMillisPattern, h3]

/-- C8 witness: a whole-second input yields an output with no milliseconds
component, and the output string ends in `Z`. -/
theorem claim8_output_shape_witness :
    (∃ b, calculateWorkingDate ∅ ⟨0, 0, 0, 0⟩ ⟨0, 0, some ⟨⟨wedDay, 870, 0, 0⟩, 0⟩⟩ = b ++ "Z") ∧
      (calculateOut ∅ ⟨0, 0, 0, 0⟩ ⟨0, 0, some ⟨⟨wedDay, 870, 0, 0⟩, 0⟩⟩).showMs = false :=
  ⟨(claim8_output_shape ∅ ⟨0, 0, 0, 0⟩ ⟨0, 0, some ⟨⟨wedDay, 870, 0, 0⟩, 0⟩⟩).1,
    (claim8_output_shape ∅ ⟨0, 0, 0, 0⟩ ⟨0, 0, some ⟨⟨wedDay, 870, 0, 0⟩, 0⟩⟩).2.2
      ⟨⟨wedDay, 870, 0, 0⟩, 0⟩ rfl rfl (by norm_num)⟩

end WorkingCalendar
